import Mathlib

/-!
# IDU-RAG: verification of the hybrid retrieval engine and ingestion pipeline

The repository is a RAG chat application.  Its frontend (TypeScript, under
`src/Frontend` and the unnamed parts) is embedded below from the source.
The backend retrieval/ingestion scripts (`hybrid_query.py`,
`embed_and_ingest_chunks.py`, `create_index.py`) are referenced by the
repository's README and called by the frontend but their code is not part
of the source tree; those components are modelled from the specification,
as marked on each definition.
-/

namespace IduRag

/-! ## Hybrid Retrieval & Ranking Engine (spec §4.3)

Scores are rationals (exact arithmetic).  A per-path result set is a list
of `(record id, raw relevance score)` pairs as returned by the Index Store
adapter. -/

/-- Minimum of a list of rationals (`0` on the empty list; only ever used
on non-empty score lists). -/
def listMin : List ℚ → ℚ
  | [] => 0
  | x :: xs => xs.foldl min x

/-- Maximum of a list of rationals (`0` on the empty list). -/
def listMax : List ℚ → ℚ
  | [] => 0
  | x :: xs => xs.foldl max x

/-- Modelled from the spec: `hybrid_query.py` is absent from the source
tree.  Min-max normalization of one result set's raw scores to `[0,1]`
(spec §4.3 step 3): `(score - min) / (max - min)`, with the degenerate
all-equal case mapping every score to `1.0` to avoid division by zero. -/
def normalizeScores (l : List (String × ℚ)) : List (String × ℚ) :=
  let mn := listMin (l.map Prod.snd)
  let mx := listMax (l.map Prod.snd)
  if mx = mn then l.map (fun p => (p.1, 1))
  else l.map (fun p => (p.1, (p.2 - mn) / (mx - mn)))

/-- Modelled from the spec: the normalized score a result set assigns to an
id, with an id absent from the set contributing `0` (spec §4.3 step 4,
union-with-zero-fill). -/
def scoreOf (l : List (String × ℚ)) (i : String) : ℚ :=
  match l.find? (fun p => p.1 == i) with
  | some p => p.2
  | none => 0

/-- Modelled from the spec: the union of ids across both result sets
(spec §4.3 step 4), first occurrence kept. -/
def unionIds (vec lex : List (String × ℚ)) : List String :=
  (vec.map Prod.fst ++ lex.map Prod.fst).dedup

/-- Modelled from the spec: fused score of one id,
`combined_score = alpha * vector_norm + (1 - alpha) * bm25_norm`
(spec §4.3 step 5). -/
def fuseScore (alpha : ℚ) (nvec nlex : List (String × ℚ)) (i : String) : ℚ :=
  alpha * scoreOf nvec i + (1 - alpha) * scoreOf nlex i

/-- Modelled from the spec: the fused candidate pool over the union of ids
of the two normalized result sets (spec §4.3 steps 3–5). -/
def fusePool (alpha : ℚ) (vec lex : List (String × ℚ)) : List (String × ℚ) :=
  (unionIds vec lex).map
    (fun i => (i, fuseScore alpha (normalizeScores vec) (normalizeScores lex) i))

/-- The result ordering of spec §4.3 step 6: descending by
`combined_score`, ties broken by id ascending. -/
def resultLE (a b : String × ℚ) : Prop :=
  b.2 < a.2 ∨ (a.2 = b.2 ∧ a.1 ≤ b.1)

instance : DecidableRel resultLE := fun a b => by
  unfold resultLE; infer_instance

instance : IsTotal (String × ℚ) resultLE where
  total a b := by
    rcases lt_trichotomy a.2 b.2 with h | h | h
    · exact Or.inr (Or.inl h)
    · rcases le_total a.1 b.1 with h1 | h1
      · exact Or.inl (Or.inr ⟨h, h1⟩)
      · exact Or.inr (Or.inr ⟨h.symm, h1⟩)
    · exact Or.inl (Or.inl h)

instance : IsTrans (String × ℚ) resultLE where
  trans a b c hab hbc := by
    rcases hab with hab | ⟨hab, hab'⟩
    · rcases hbc with hbc | ⟨hbc, _⟩
      · exact Or.inl (hbc.trans hab)
      · exact Or.inl (hbc ▸ hab)
    · rcases hbc with hbc | ⟨hbc, hbc'⟩
      · exact Or.inl (hab ▸ hbc)
      · exact Or.inr ⟨hab.trans hbc, hab'.trans hbc'⟩

/-- Modelled from the spec: sort the fused pool descending by
`combined_score` with id tie-break, truncate to `top_n`
(spec §4.3 step 6). -/
def rankResults (alpha : ℚ) (vec lex : List (String × ℚ)) (n : ℕ) :
    List (String × ℚ) :=
  (List.insertionSort resultLE (fusePool alpha vec lex)).take n

/-- Fusion parameters of a query (spec §3 `Query`). -/
structure SearchParams where
  alpha : ℚ
  kvec : ℤ
  kbm25 : ℤ
  top_n : ℤ
deriving DecidableEq

/-- Modelled from the spec: parameter validation of spec §4.3 / §7 —
`alpha ∈ [0,1]`, both `k`s and `top_n` positive. -/
def validateParams (q : SearchParams) : Bool :=
  decide (0 ≤ q.alpha) && decide (q.alpha ≤ 1) &&
    decide (0 < q.kvec) && decide (0 < q.kbm25) && decide (0 < q.top_n)

/-- Spec §7 error taxonomy (the search-time part). -/
inductive SearchError
  | invalidParameter
  | embeddingError
  | retrievalError
deriving DecidableEq

/-- The adapter calls a search may issue (spec §4.3 steps 1–2). -/
inductive AdapterCall
  | embedQuery
  | vectorQuery
  | lexicalQuery
deriving DecidableEq

/-- Modelled from the spec: the whole search call.  Besides the result it
records the trace of adapter calls issued, so that "rejected before any
adapter call" is expressible.  `vec`/`lex` are the two result sets the
Index Store adapter would return for the query. -/
def hybridSearchTrace (q : SearchParams) (vec lex : List (String × ℚ)) :
    Except SearchError (List (String × ℚ)) × List AdapterCall :=
  if validateParams q then
    (Except.ok (rankResults q.alpha vec lex q.top_n.toNat),
      [AdapterCall.embedQuery, AdapterCall.vectorQuery, AdapterCall.lexicalQuery])
  else
    (Except.error SearchError.invalidParameter, [])

/-- Modelled from the spec: `search(query) -> RankedResult[]`
(spec §4.3 contract), the result component of `hybridSearchTrace`. -/
def hybridSearch (q : SearchParams) (vec lex : List (String × ℚ)) :
    Except SearchError (List (String × ℚ)) :=
  (hybridSearchTrace q vec lex).1

/-- Follows the spec's words (for the refinement claim about `alpha = 1`):
"the pure vector ranking" — the vector path's normalized result set alone,
ranked and truncated. -/
def pureVectorRanking (vec : List (String × ℚ)) (n : ℕ) : List (String × ℚ) :=
  (List.insertionSort resultLE (normalizeScores vec)).take n

/-- Follows the spec's words (for the refinement claim about `alpha = 0`):
"the pure lexical ranking" — the lexical path's normalized result set
alone, ranked and truncated. -/
def pureLexicalRanking (lex : List (String × ℚ)) (n : ℕ) : List (String × ℚ) :=
  (List.insertionSort resultLE (normalizeScores lex)).take n

/-- The union candidate pool scored by the vector path alone (each id's
normalized vector score, zero when absent), ranked and truncated. -/
def pureVectorPoolRanking (vec lex : List (String × ℚ)) (n : ℕ) :
    List (String × ℚ) :=
  (List.insertionSort resultLE
    ((unionIds vec lex).map (fun i => (i, scoreOf (normalizeScores vec) i)))).take n

/-- The union candidate pool scored by the lexical path alone, ranked and
truncated. -/
def pureLexicalPoolRanking (vec lex : List (String × ℚ)) (n : ℕ) :
    List (String × ℚ) :=
  (List.insertionSort resultLE
    ((unionIds vec lex).map (fun i => (i, scoreOf (normalizeScores lex) i)))).take n

/-! ## Frontend data model (`src/Frontend/lib/api.ts`) -/

/-- Interface `Contact` of `api.ts`. -/
structure Contact where
  name : String
  email : Option String := none
  phone : Option String := none
  title : Option String := none
  address : Option String := none
deriving DecidableEq

/-- Interface `Member` of `api.ts`. -/
structure Member where
  name : String
  title : Option String := none
  role : Option String := none
deriving DecidableEq

/-- Interface `Facility` of `api.ts`. -/
structure Facility where
  name : String
  type : Option String := none
  usage : Option String := none
deriving DecidableEq

/-- The `structured_info` payload of `ExtractedData` in `api.ts`. -/
structure StructuredInfo where
  org_name : Option String := none
  country : Option String := none
  address : Option String := none
  founded_year : Option ℤ := none
  size : Option String := none
  industry : Option String := none
  is_DU_member : Option Bool := none
  website : Option String := none
  contacts : List Contact := []
  members : List Member := []
  facilities : List Facility := []
  capabilities : List String := []
  projects : List String := []
  awards : List String := []
  services : List String := []
  notes : Option String := none
  summary : Option String := none
deriving DecidableEq

/-- Interface `ExtractedData` of `api.ts`: per-file extraction result returned by
`extract_pdf_preview`, with a populated `error` on a failed file. -/
structure ExtractedData where
  filename : String
  text_length : Option ℕ := none
  structured_info : Option StructuredInfo := none
  raw_text_preview : Option String := none
  error : Option String := none
deriving DecidableEq

/-- The JSON body `BackendAPI.confirmAndIndex` posts to
`/api/confirm_and_index` (`api.ts` lines 417–436). -/
structure ConfirmAndIndexBody where
  extracted_data : List ExtractedData
  embedding_dimensions : ℕ
  batch_upload_size : ℕ
  write_action : String
deriving DecidableEq

/-- Method `BackendAPI.confirmAndIndex`: the request body it builds for a
list of extracted records (`api.ts`: `extracted_data`,
`embedding_dimensions: 1536`, `batch_upload_size: 64`,
`write_action: 'mergeOrUpload'`). -/
def confirmAndIndexBody (extractedData : List ExtractedData) : ConfirmAndIndexBody :=
  { extracted_data := extractedData
    embedding_dimensions := 1536
    batch_upload_size := 64
    write_action := "mergeOrUpload" }

/-! ## PDF upload preview flow (`src/unnamed/part_007`, `PDFUpload`) -/

/-- The per-file status entries of `PDFUpload` (`UploadedFile` in
`part_007`). -/
inductive FileStatus
  | pending
  | extracting
  | success
  | error
deriving DecidableEq

/-- One entry of the `files` state list of `PDFUpload`. -/
structure UploadedFile where
  name : String
  status : FileStatus
  error : Option String := none
  textLength : Option ℕ := none
deriving DecidableEq

/-- The outcome of one `BackendAPI.extractPDFPreview` call for a single
file: either the thrown fetch error (HTTP failure) or the response's
`extracted_data` array. -/
abbrev PreviewOutcome := Except String (List ExtractedData)

/-- Per-file status update of `handleExtractPreview` (`part_007` lines
89–135): on a thrown error the file is marked `error`; on a response whose
first entry carries `error` the file is marked `error` with that message;
on an empty response the file is marked `error` with "No data returned";
otherwise `success` with the extracted text length. -/
def statusOf (name : String) (o : PreviewOutcome) : UploadedFile :=
  match o with
  | Except.error e => { name := name, status := FileStatus.error, error := some e }
  | Except.ok [] =>
      { name := name, status := FileStatus.error, error := some "No data returned" }
  | Except.ok (r :: _) =>
      if r.error.isSome then
        { name := name, status := FileStatus.error, error := r.error }
      else
        { name := name, status := FileStatus.success, textLength := r.text_length }

/-- Per-file contribution of `handleExtractPreview` to `allExtractedData`
(`part_007` lines 96–98): the response's first entry, pushed whether or
not its `error` field is populated; nothing on a thrown error or an empty
response. -/
def collectedOf (o : PreviewOutcome) : List ExtractedData :=
  match o with
  | Except.ok (r :: _) => [r]
  | _ => []

/-- The whole of `handleExtractPreview` (`part_007` lines 70–161) over a batch: each
input file is paired with its own backend outcome.  Returns the per-file
status list, the collected `allExtractedData`, and the `extractedData`
state set at line 144 (`allExtractedData.filter(data => !data.error)`). -/
def handleExtractPreview (batch : List (String × PreviewOutcome)) :
    List UploadedFile × List ExtractedData × List ExtractedData :=
  let statuses := batch.map (fun p => statusOf p.1 p.2)
  let allExtracted := (batch.map (fun p => collectedOf p.2)).flatten
  (statuses, allExtracted, allExtracted.filter (fun d => d.error.isNone))

/-! ## Extracted-data preview confirmation (`src/unnamed/part_006`,
`ExtractedDataPreview`) -/

/-- The initial `selectedFiles` state (`part_006` lines 28–30):
`extractedData.map(item => !item.error)`. -/
def initialSelection (extractedData : List ExtractedData) : List Bool :=
  extractedData.map (fun item => item.error.isNone)

/-- Function `handleConfirmSelected` (`part_006` lines 86–89): the records handed
to `onConfirm` (and from there to `BackendAPI.confirmAndIndex` via
`handleConfirmAndIndex` in `part_007` lines 163–183) are
`editData.filter((item, index) => selectedFiles[index] && !item.error)`. -/
def confirmSelected (editData : List ExtractedData) (selected : List Bool) :
    List ExtractedData :=
  ((editData.zip selected).filter (fun p => p.2 && p.1.error.isNone)).map Prod.fst

/-! ## Record ids and chunking (ingestion, spec §4.1/§6) -/

/-- Modelled from the spec: `embed_and_ingest_chunks.py` is absent from
the source tree.  The stable record id the Index Store consumes, composed
from `document_id` and `chunk_index` (spec §6:
`"{document_id}#{chunk_index}"`). -/
def recordId (documentId : String) (chunkIndex : ℕ) : String :=
  documentId ++ "#" ++ toString chunkIndex

/-- Modelled from the spec: the list of record ids upserted for a document
that produced `n` chunks (chunk indices `0 .. n-1` in order). -/
def upsertIds (documentId : String) (n : ℕ) : List String :=
  (List.range n).map (recordId documentId)

/-- Chunker configuration (spec §4.1): maximum segment length and overlap
(tail of segment `n` repeated at the head of segment `n+1`). -/
structure ChunkCfg where
  maxLen : ℕ
  overlap : ℕ
deriving DecidableEq

/-- A chunk (spec §3): 0-based `chunk_index`, the page range it touches,
and its text. -/
structure Chunk where
  chunk_index : ℕ
  page_from : ℕ
  page_to : ℕ
  text : String
deriving DecidableEq

/-- Concatenated page text, each character tagged with its page number. -/
def pageChars (pages : List (ℕ × String)) : List (ℕ × Char) :=
  (pages.map (fun p => p.2.toList.map (fun c => (p.1, c)))).flatten

/-- Smallest page number touched by a segment (`0` on the empty segment). -/
def minPage (seg : List (ℕ × Char)) : ℕ :=
  match seg with
  | [] => 0
  | x :: xs => (xs.map Prod.fst).foldl min x.1

/-- Largest page number touched by a segment (`0` on the empty segment). -/
def maxPage (seg : List (ℕ × Char)) : ℕ :=
  match seg with
  | [] => 0
  | x :: xs => (xs.map Prod.fst).foldl max x.1

/-- Modelled from the spec: one chunking step.  Takes up to `maxLen`
characters starting at `start`, emits the chunk with its page range, and
advances by `maxLen - overlap` (at least 1); trailing text always becomes
the final chunk rather than being dropped (spec §4.1).  `fuel` bounds the
recursion; `chunk` supplies enough of it. -/
def chunkAux (cfg : ChunkCfg) (chars : List (ℕ × Char)) :
    ℕ → ℕ → ℕ → List Chunk
  | 0, _, _ => []
  | fuel + 1, start, idx =>
    if start < chars.length then
      let seg := (chars.drop start).take cfg.maxLen
      let c : Chunk :=
        { chunk_index := idx
          page_from := minPage seg
          page_to := maxPage seg
          text := String.mk (seg.map Prod.snd) }
      if start + cfg.maxLen < chars.length then
        c :: chunkAux cfg chars fuel (start + max (cfg.maxLen - cfg.overlap) 1) (idx + 1)
      else
        [c]
    else []

/-- Modelled from the spec: `chunk(document_id, pages[]) -> Chunk[]`
(spec §4.1), splitting the concatenated page text into bounded overlapping
segments tagged with the min/max page touched. -/
def chunk (cfg : ChunkCfg) (pages : List (ℕ × String)) : List Chunk :=
  chunkAux cfg (pageChars pages) (pageChars pages).length 0 0

/-- The observable tuple of a chunk, as named by the spec's determinism
property (`(chunk_index, page_from, page_to, text)`). -/
def chunkTuple (c : Chunk) : ℕ × ℕ × ℕ × String :=
  (c.chunk_index, c.page_from, c.page_to, c.text)

/-! ## Concrete scenarios fixed by the spec (§8) -/

/-- The fusion scenario's parameters: `alpha=0.7, k_vec=10, k_bm25=10,
top_n=5`. -/
def scenarioParams : SearchParams := ⟨7/10, 10, 10, 5⟩

/-- Vector result set of the fusion scenario: the chunk of interest is the
top hit with raw similarity `0.92`. -/
def scenarioVec : List (String × ℚ) := [("m1", 92/100), ("m2", 40/100)]

/-- Lexical result set of the fusion scenario: does not contain `"m1"`. -/
def scenarioLex : List (String × ℚ) := [("k", 5)]

/-- The ingestion-isolation scenario: a batch of three files where file 2
is a corrupted PDF whose extraction fails, the backend returning an
`ExtractedData` entry with a populated `error`. -/
def scenarioBatch : List (String × PreviewOutcome) :=
  [("f1", Except.ok [{ filename := "f1", text_length := some 100, structured_info := some {} }]),
   ("f2", Except.ok [{ filename := "f2", error := some "corrupted PDF" }]),
   ("f3", Except.ok [{ filename := "f3", text_length := some 50, structured_info := some {} }])]

/-! ## Supporting lemmas -/

theorem foldl_min_le_init (xs : List ℚ) (a : ℚ) : xs.foldl min a ≤ a := by
  induction xs generalizing a with
  | nil => simp
  | cons x xs ih => exact le_trans (ih (min a x)) (min_le_left a x)

theorem foldl_min_le_mem {xs : List ℚ} {s : ℚ} (h : s ∈ xs) (a : ℚ) :
    xs.foldl min a ≤ s := by
  induction xs generalizing a with
  | nil => cases h
  | cons x xs ih =>
    rcases List.mem_cons.mp h with rfl | h'
    · exact le_trans (foldl_min_le_init xs (min a s)) (min_le_right a s)
    · exact ih h' (min a x)

theorem init_le_foldl_max (xs : List ℚ) (a : ℚ) : a ≤ xs.foldl max a := by
  induction xs generalizing a with
  | nil => simp
  | cons x xs ih => exact le_trans (le_max_left a x) (ih (max a x))

theorem mem_le_foldl_max {xs : List ℚ} {s : ℚ} (h : s ∈ xs) (a : ℚ) :
    s ≤ xs.foldl max a := by
  induction xs generalizing a with
  | nil => cases h
  | cons x xs ih =>
    rcases List.mem_cons.mp h with rfl | h'
    · exact le_trans (le_max_right a s) (init_le_foldl_max xs (max a s))
    · exact ih h' (max a x)

theorem listMin_le_of_mem {l : List ℚ} {s : ℚ} (h : s ∈ l) : listMin l ≤ s := by
  cases l with
  | nil => cases h
  | cons x xs =>
    rcases List.mem_cons.mp h with rfl | h'
    · exact foldl_min_le_init xs s
    · exact foldl_min_le_mem h' x

theorem le_listMax_of_mem {l : List ℚ} {s : ℚ} (h : s ∈ l) : s ≤ listMax l := by
  cases l with
  | nil => cases h
  | cons x xs =>
    rcases List.mem_cons.mp h with rfl | h'
    · exact init_le_foldl_max xs s
    · exact mem_le_foldl_max h' x

theorem foldl_min_mem (xs : List ℚ) (a : ℚ) : xs.foldl min a ∈ a :: xs := by
  induction xs generalizing a with
  | nil => simp
  | cons x xs ih =>
    rw [List.foldl_cons]
    rcases List.mem_cons.mp (ih (min a x)) with h | h
    · rw [h]
      rcases min_choice a x with h' | h' <;> rw [h'] <;> simp
    · exact List.mem_cons_of_mem _ (List.mem_cons_of_mem _ h)

theorem foldl_max_mem (xs : List ℚ) (a : ℚ) : xs.foldl max a ∈ a :: xs := by
  induction xs generalizing a with
  | nil => simp
  | cons x xs ih =>
    rw [List.foldl_cons]
    rcases List.mem_cons.mp (ih (max a x)) with h | h
    · rw [h]
      rcases max_choice a x with h' | h' <;> rw [h'] <;> simp
    · exact List.mem_cons_of_mem _ (List.mem_cons_of_mem _ h)

theorem listMin_mem {l : List ℚ} (h : l ≠ []) : listMin l ∈ l := by
  cases l with
  | nil => exact absurd rfl h
  | cons x xs => exact foldl_min_mem xs x

theorem listMax_mem {l : List ℚ} (h : l ≠ []) : listMax l ∈ l := by
  cases l with
  | nil => exact absurd rfl h
  | cons x xs => exact foldl_max_mem xs x

@[simp] theorem scoreOf_nil (i : String) : scoreOf [] i = 0 := rfl

@[simp] theorem scoreOf_cons (j : String) (s : ℚ) (l : List (String × ℚ)) (i : String) :
    scoreOf ((j, s) :: l) i = if j = i then s else scoreOf l i := by
  simp only [scoreOf, List.find?]
  by_cases h : j = i
  · simp [h]
  · simp [h, beq_eq_false_iff_ne.mpr h]

theorem scoreOf_eq_zero_of_not_mem {l : List (String × ℚ)} {i : String}
    (h : i ∉ l.map Prod.fst) : scoreOf l i = 0 := by
  unfold scoreOf
  rw [List.find?_eq_none.mpr]
  intro p hp
  simp only [beq_iff_eq]
  intro hpi
  exact h (hpi ▸ List.mem_map_of_mem Prod.fst hp)

theorem scoreOf_bounds {l : List (String × ℚ)} (hl : ∀ p ∈ l, 0 ≤ p.2 ∧ p.2 ≤ 1)
    (i : String) : 0 ≤ scoreOf l i ∧ scoreOf l i ≤ 1 := by
  unfold scoreOf
  cases hfind : l.find? (fun p => p.1 == i) with
  | none => norm_num
  | some p => exact hl p (List.mem_of_find?_eq_some hfind)

theorem normalizeScores_bounds {l : List (String × ℚ)} :
    ∀ p ∈ normalizeScores l, 0 ≤ p.2 ∧ p.2 ≤ 1 := by
  intro p hp
  unfold normalizeScores at hp
  set mn := listMin (l.map Prod.snd) with hmn
  set mx := listMax (l.map Prod.snd) with hmx
  by_cases hdeg : mx = mn
  · rw [if_pos hdeg] at hp
    rcases List.mem_map.mp hp with ⟨q, _, rfl⟩
    norm_num
  · rw [if_neg hdeg] at hp
    rcases List.mem_map.mp hp with ⟨q, hq, rfl⟩
    have hsnd : q.2 ∈ l.map Prod.snd := List.mem_map_of_mem Prod.snd hq
    have h1 : mn ≤ q.2 := listMin_le_of_mem hsnd
    have h2 : q.2 ≤ mx := le_listMax_of_mem hsnd
    have hlt : mn < mx := lt_of_le_of_ne (h1.trans h2) (Ne.symm hdeg)
    have hpos : 0 < mx - mn := by linarith
    constructor
    · exact div_nonneg (by linarith) (le_of_lt hpos)
    · rw [div_le_one hpos]; linarith

theorem normalizeScores_fst (l : List (String × ℚ)) :
    (normalizeScores l).map Prod.fst = l.map Prod.fst := by
  unfold normalizeScores
  by_cases hdeg : listMax (l.map Prod.snd) = listMin (l.map Prod.snd) <;>
    simp [hdeg]

theorem fusePool_mem {alpha : ℚ} {vec lex : List (String × ℚ)} {p : String × ℚ}
    (hp : p ∈ fusePool alpha vec lex) :
    p.1 ∈ unionIds vec lex ∧
      p.2 = fuseScore alpha (normalizeScores vec) (normalizeScores lex) p.1 := by
  unfold fusePool at hp
  rcases List.mem_map.mp hp with ⟨i, hi, rfl⟩
  exact ⟨hi, rfl⟩

theorem fusePool_bounds {alpha : ℚ} (h0 : 0 ≤ alpha) (h1 : alpha ≤ 1)
    {vec lex : List (String × ℚ)} {p : String × ℚ}
    (hp : p ∈ fusePool alpha vec lex) : 0 ≤ p.2 ∧ p.2 ≤ 1 := by
  rcases fusePool_mem hp with ⟨_, hscore⟩
  rw [hscore]
  unfold fuseScore
  rcases scoreOf_bounds (fun q hq => normalizeScores_bounds q hq) p.1
    (l := normalizeScores vec) with ⟨hv0, hv1⟩
  rcases scoreOf_bounds (fun q hq => normalizeScores_bounds q hq) p.1
    (l := normalizeScores lex) with ⟨hb0, hb1⟩
  constructor
  · have := mul_nonneg h0 hv0
    have := mul_nonneg (by linarith : (0:ℚ) ≤ 1 - alpha) hb0
    linarith
  · have h2 : alpha * scoreOf (normalizeScores vec) p.1 ≤ alpha * 1 :=
      mul_le_mul_of_nonneg_left hv1 h0
    have h3 : (1 - alpha) * scoreOf (normalizeScores lex) p.1 ≤ (1 - alpha) * 1 :=
      mul_le_mul_of_nonneg_left hb1 (by linarith)
    linarith

theorem fusePool_fst (alpha : ℚ) (vec lex : List (String × ℚ)) :
    (fusePool alpha vec lex).map Prod.fst = unionIds vec lex := by
  unfold fusePool
  rw [List.map_map]
  exact List.map_id _

theorem fusePool_pairwise_ne (alpha : ℚ) (vec lex : List (String × ℚ)) :
    (fusePool alpha vec lex).Pairwise (fun a b => a.1 ≠ b.1) := by
  unfold fusePool
  rw [List.pairwise_map]
  exact (List.nodup_dedup _)

theorem validateParams_iff (q : SearchParams) :
    validateParams q = true ↔
      0 ≤ q.alpha ∧ q.alpha ≤ 1 ∧ 0 < q.kvec ∧ 0 < q.kbm25 ∧ 0 < q.top_n := by
  simp [validateParams, Bool.and_eq_true, decide_eq_true_eq, and_assoc]

theorem pairwise_and {α : Type _} {R S : α → α → Prop} {l : List α}
    (hR : l.Pairwise R) (hS : l.Pairwise S) :
    l.Pairwise (fun a b => R a b ∧ S a b) := by
  induction l with
  | nil => exact List.Pairwise.nil
  | cons x xs ih =>
    rcases List.pairwise_cons.mp hR with ⟨hRx, hR'⟩
    rcases List.pairwise_cons.mp hS with ⟨hSx, hS'⟩
    exact List.pairwise_cons.mpr ⟨fun y hy => ⟨hRx y hy, hSx y hy⟩, ih hR' hS'⟩

theorem rankResults_mem {alpha : ℚ} {vec lex : List (String × ℚ)} {n : ℕ}
    {p : String × ℚ} (hp : p ∈ rankResults alpha vec lex n) :
    p ∈ fusePool alpha vec lex := by
  unfold rankResults at hp
  exact (List.mem_insertionSort resultLE).mp (List.take_subset n _ hp)

theorem rankResults_length (alpha : ℚ) (vec lex : List (String × ℚ)) (n : ℕ) :
    (rankResults alpha vec lex n).length ≤ n :=
  List.length_take_le n _

theorem rankResults_pairwise (alpha : ℚ) (vec lex : List (String × ℚ)) (n : ℕ) :
    (rankResults alpha vec lex n).Pairwise
      (fun a b => b.2 < a.2 ∨ (a.2 = b.2 ∧ a.1 < b.1)) := by
  have hsorted : (List.insertionSort resultLE (fusePool alpha vec lex)).Pairwise resultLE :=
    List.sorted_insertionSort resultLE (fusePool alpha vec lex)
  have hperm : List.Perm (List.insertionSort resultLE (fusePool alpha vec lex))
      (fusePool alpha vec lex) :=
    List.perm_insertionSort resultLE (fusePool alpha vec lex)
  have hne : (List.insertionSort resultLE (fusePool alpha vec lex)).Pairwise
      (fun a b => a.1 ≠ b.1) :=
    (hperm.pairwise_iff (fun h => Ne.symm h)).mpr (fusePool_pairwise_ne alpha vec lex)
  have hboth := pairwise_and hsorted hne
  have hstrict : (List.insertionSort resultLE (fusePool alpha vec lex)).Pairwise
      (fun a b => b.2 < a.2 ∨ (a.2 = b.2 ∧ a.1 < b.1)) := by
    refine hboth.imp ?_
    rintro a b ⟨hle, hab⟩
    rcases hle with hlt | ⟨heq, hle⟩
    · exact Or.inl hlt
    · exact Or.inr ⟨heq, lt_of_le_of_ne hle hab⟩
  exact hstrict.sublist (List.take_sublist n _)

theorem hybridSearch_ok {q : SearchParams} (hvalid : validateParams q = true)
    (vec lex : List (String × ℚ)) :
    hybridSearch q vec lex = Except.ok (rankResults q.alpha vec lex q.top_n.toNat) := by
  unfold hybridSearch hybridSearchTrace
  rw [if_pos hvalid]

/-! ## Evaluation of the fixed fusion scenario -/

theorem scenarioParams_valid : validateParams scenarioParams = true :=
  (validateParams_iff scenarioParams).mpr (by norm_num [scenarioParams])

theorem scenario_eval :
    hybridSearch scenarioParams scenarioVec scenarioLex =
      Except.ok [("m1", 7/10), ("k", 3/10), ("m2", 0)] := by
  norm_num [scenarioParams, scenarioVec, scenarioLex, hybridSearch, hybridSearchTrace,
    validateParams, rankResults, fusePool, fuseScore, unionIds, normalizeScores,
    listMin, listMax, List.insertionSort, List.orderedInsert, resultLE, List.dedup,
    (by decide : ¬("m1":String) = "m2"), (by decide : ¬("m2":String) = "m1"),
    (by decide : ¬("m1":String) = "k"), (by decide : ¬("k":String) = "m1"),
    (by decide : ¬("m2":String) = "k"), (by decide : ¬("k":String) = "m2")]

/-! ## Claim theorems: hybrid retrieval engine -/

/-- C1 (counterexample): as stated the claim fails — with `alpha = 1` and
a record retrieved only by the lexical path, `search` keeps that record in
the fused pool with `combined_score 0`, so the returned list is not the
pure vector ranking (which has only the vector hits). -/
theorem search_alpha_one_counterexample :
    hybridSearch ⟨1, 10, 10, 2⟩ [("a", 1)] [("b", 1)] = Except.ok [("a", 1), ("b", 0)] ∧
      pureVectorRanking [("a", 1)] 2 = [("a", 1)] ∧
      ([("a", (1:ℚ)), ("b", 0)] : List (String × ℚ)) ≠ [("a", 1)] := by
  refine ⟨?_, ?_, by simp⟩
  · norm_num [hybridSearch, hybridSearchTrace, validateParams, rankResults, fusePool,
      fuseScore, unionIds, normalizeScores, listMin, listMax, List.insertionSort,
      List.orderedInsert, resultLE, List.dedup,
      (by decide : ¬("a":String) = "b"), (by decide : ¬("b":String) = "a")]
  · norm_num [pureVectorRanking, normalizeScores, listMin, listMax, List.insertionSort]

/-- C1 (amended): for every valid query with `alpha = 1` the result list
equals the pure vector ranking of the fused candidate pool — every id of
the union ranked by its normalized vector score alone, the lexical path
contributing exactly zero to every `combined_score` (ids retrieved only
lexically stay in the pool with score `0`); symmetrically, with
`alpha = 0` it equals the pure lexical ranking of the pool. -/
theorem search_alpha_extremes (q : SearchParams) (vec lex : List (String × ℚ))
    (hvalid : validateParams q = true) :
    (q.alpha = 1 →
      hybridSearch q vec lex =
        Except.ok (pureVectorPoolRanking vec lex q.top_n.toNat)) ∧
    (q.alpha = 0 →
      hybridSearch q vec lex =
        Except.ok (pureLexicalPoolRanking vec lex q.top_n.toNat)) := by
  constructor
  · intro ha
    rw [hybridSearch_ok hvalid, ha]
    unfold rankResults pureVectorPoolRanking fusePool
    rw [List.map_congr_left (fun i _ => by simp [fuseScore] :
      ∀ i ∈ unionIds vec lex,
        (i, fuseScore 1 (normalizeScores vec) (normalizeScores lex) i) =
          (i, scoreOf (normalizeScores vec) i))]
  · intro ha
    rw [hybridSearch_ok hvalid, ha]
    unfold rankResults pureLexicalPoolRanking fusePool
    rw [List.map_congr_left (fun i _ => by simp [fuseScore] :
      ∀ i ∈ unionIds vec lex,
        (i, fuseScore 0 (normalizeScores vec) (normalizeScores lex) i) =
          (i, scoreOf (normalizeScores lex) i))]

/-- C1 witness: the amended claim at a concrete query with `alpha = 1`. -/
theorem search_alpha_extremes_witness :
    hybridSearch ⟨1, 10, 10, 5⟩ [("m1", 92/100), ("m2", 40/100)] [("k", 5)] =
      Except.ok (pureVectorPoolRanking [("m1", 92/100), ("m2", 40/100)] [("k", 5)]
        (5 : ℤ).toNat) :=
  (search_alpha_extremes ⟨1, 10, 10, 5⟩ _ _
    ((validateParams_iff _).mpr (by norm_num))).1 rfl

/-- C2: for every valid query, the result sequence is truncated to at most
`top_n` elements, is strictly descending by `combined_score` with ties
broken by id ascending, and every `combined_score` lies in `[0,1]`. -/
theorem search_ordering_invariant (q : SearchParams) (vec lex : List (String × ℚ))
    (rs : List (String × ℚ)) (hvalid : validateParams q = true)
    (hok : hybridSearch q vec lex = Except.ok rs) :
    rs.length ≤ q.top_n.toNat ∧
      rs.Pairwise (fun a b => b.2 < a.2 ∨ (a.2 = b.2 ∧ a.1 < b.1)) ∧
      ∀ r ∈ rs, 0 ≤ r.2 ∧ r.2 ≤ 1 := by
  rw [hybridSearch_ok hvalid] at hok
  injection hok with hok
  subst hok
  rcases (validateParams_iff q).mp hvalid with ⟨h0, h1, -, -, -⟩
  refine ⟨rankResults_length _ _ _ _, rankResults_pairwise _ _ _ _, ?_⟩
  intro r hr
  exact fusePool_bounds h0 h1 (rankResults_mem hr)

/-- C2 witness: the invariant at the spec's `alpha = 0.7` scenario. -/
theorem search_ordering_invariant_witness :
    ([("m1", (7:ℚ)/10), ("k", 3/10), ("m2", 0)] : List (String × ℚ)).length ≤
        scenarioParams.top_n.toNat ∧
      ([("m1", (7:ℚ)/10), ("k", 3/10), ("m2", 0)] : List (String × ℚ)).Pairwise
        (fun a b => b.2 < a.2 ∨ (a.2 = b.2 ∧ a.1 < b.1)) ∧
      ∀ r ∈ ([("m1", (7:ℚ)/10), ("k", 3/10), ("m2", 0)] : List (String × ℚ)),
        0 ≤ r.2 ∧ r.2 ≤ 1 :=
  search_ordering_invariant scenarioParams scenarioVec scenarioLex _
    scenarioParams_valid scenario_eval

/-- C3: every returned result's id comes from the union of the two result
sets' ids and its score is `alpha * vector_norm + (1 - alpha) * bm25_norm`
with an id absent from a path scoring `0` there; and concretely, in the
spec's scenario (`alpha = 0.7`, top vector hit `0.92` normalized to `1`,
absent from the lexical set) that record's `combined_score` is `0.7`. -/
theorem search_fusion_formula (q : SearchParams) (vec lex : List (String × ℚ))
    (rs : List (String × ℚ)) (hvalid : validateParams q = true)
    (hok : hybridSearch q vec lex = Except.ok rs) :
    (∀ r ∈ rs, r.1 ∈ unionIds vec lex ∧
      r.2 = q.alpha * scoreOf (normalizeScores vec) r.1 +
        (1 - q.alpha) * scoreOf (normalizeScores lex) r.1) ∧
    (∀ (l : List (String × ℚ)) (i : String), i ∉ l.map Prod.fst → scoreOf l i = 0) ∧
    hybridSearch scenarioParams scenarioVec scenarioLex =
      Except.ok [("m1", 7/10), ("k", 3/10), ("m2", 0)] := by
  rw [hybridSearch_ok hvalid] at hok
  injection hok with hok
  subst hok
  refine ⟨?_, fun l i h => scoreOf_eq_zero_of_not_mem h, scenario_eval⟩
  intro r hr
  rcases fusePool_mem (rankResults_mem hr) with ⟨hid, hscore⟩
  exact ⟨hid, hscore⟩

/-- C3 witness: the fusion formula instantiated at the spec's scenario;
the top vector hit absent from the lexical set scores exactly `7/10`. -/
theorem search_fusion_formula_witness :
    ("m1", (7:ℚ)/10).1 ∈ unionIds scenarioVec scenarioLex ∧
      ("m1", (7:ℚ)/10).2 =
        scenarioParams.alpha * scoreOf (normalizeScores scenarioVec) "m1" +
          (1 - scenarioParams.alpha) * scoreOf (normalizeScores scenarioLex) "m1" :=
  (search_fusion_formula scenarioParams scenarioVec scenarioLex _
    scenarioParams_valid scenario_eval).1 ("m1", 7/10) (by simp)

/-- C5: a search whose parameters fail validation (`alpha ∉ [0,1]`, or a
non-positive `k_vec`/`k_bm25`/`top_n`) returns `InvalidParameter` and
issues no adapter call at all (empty adapter trace, so no state is
touched). -/
theorem invalid_params_rejected (q : SearchParams) (vec lex : List (String × ℚ))
    (hinvalid : validateParams q = false) :
    hybridSearchTrace q vec lex =
      (Except.error SearchError.invalidParameter, []) := by
  unfold hybridSearchTrace
  rw [hinvalid]
  simp

/-- C5 witness: `alpha = 2 > 1` is rejected with an empty adapter trace. -/
theorem invalid_params_rejected_witness :
    hybridSearchTrace ⟨2, 10, 10, 5⟩ [("a", 1)] [("b", 1)] =
      (Except.error SearchError.invalidParameter, []) :=
  invalid_params_rejected ⟨2, 10, 10, 5⟩ _ _ (by simp [validateParams])

/-- C4: if a result set's raw scores are all equal, min-max normalization
maps every score to exactly `1.0` (no division by the zero denominator
`max - min`); otherwise `max ≠ min` holds, each score becomes
`(score - min) / (max - min)`, and every normalized score lies in
`[0,1]`. -/
theorem normalization_minmax (l : List (String × ℚ)) :
    ((∀ p ∈ l, ∀ p' ∈ l, p.2 = p'.2) → ∀ p ∈ normalizeScores l, p.2 = 1) ∧
    ((∃ p ∈ l, ∃ p' ∈ l, p.2 ≠ p'.2) →
      listMin (l.map Prod.snd) ≠ listMax (l.map Prod.snd) ∧
      normalizeScores l = l.map (fun p => (p.1,
        (p.2 - listMin (l.map Prod.snd)) /
          (listMax (l.map Prod.snd) - listMin (l.map Prod.snd)))) ∧
      ∀ p ∈ normalizeScores l, 0 ≤ p.2 ∧ p.2 ≤ 1) := by
  constructor
  · intro hall p hp
    have hdeg : listMax (l.map Prod.snd) = listMin (l.map Prod.snd) := by
      cases l with
      | nil => rfl
      | cons q rest =>
        rcases List.mem_map.mp
          (listMin_mem (l := (q :: rest).map Prod.snd) (by simp)) with ⟨a, ha, ha2⟩
        rcases List.mem_map.mp
          (listMax_mem (l := (q :: rest).map Prod.snd) (by simp)) with ⟨b, hb, hb2⟩
        rw [← ha2, ← hb2]
        exact hall b hb a ha
    unfold normalizeScores at hp
    rw [if_pos hdeg] at hp
    rcases List.mem_map.mp hp with ⟨q, _, rfl⟩
    rfl
  · rintro ⟨p, hp, p', hp', hne⟩
    have hdeg : listMin (l.map Prod.snd) ≠ listMax (l.map Prod.snd) := by
      intro heq
      apply hne
      have h1 : listMin (l.map Prod.snd) ≤ p.2 :=
        listMin_le_of_mem (List.mem_map_of_mem Prod.snd hp)
      have h2 : p.2 ≤ listMax (l.map Prod.snd) :=
        le_listMax_of_mem (List.mem_map_of_mem Prod.snd hp)
      have h3 : listMin (l.map Prod.snd) ≤ p'.2 :=
        listMin_le_of_mem (List.mem_map_of_mem Prod.snd hp')
      have h4 : p'.2 ≤ listMax (l.map Prod.snd) :=
        le_listMax_of_mem (List.mem_map_of_mem Prod.snd hp')
      have := heq ▸ h2
      have := heq ▸ h4
      linarith
    refine ⟨hdeg, ?_, normalizeScores_bounds⟩
    unfold normalizeScores
    rw [if_neg (fun h => hdeg h.symm)]

/-- C4 witness: an all-equal set normalizes to all `1`; a set with two
distinct scores normalizes by `(score - min) / (max - min)`. -/
theorem normalization_minmax_witness :
    (∀ p ∈ normalizeScores [("a", 2), ("b", 2)], p.2 = 1) ∧
      normalizeScores [("a", 1), ("b", 3)] =
        ([("a", 1), ("b", 3)] : List (String × ℚ)).map (fun p => (p.1,
          (p.2 - listMin (([("a", 1), ("b", 3)] : List (String × ℚ)).map Prod.snd)) /
            (listMax (([("a", 1), ("b", 3)] : List (String × ℚ)).map Prod.snd) -
              listMin (([("a", 1), ("b", 3)] : List (String × ℚ)).map Prod.snd)))) :=
  ⟨(normalization_minmax [("a", 2), ("b", 2)]).1
      (by
        intro p hp p' hp'
        rcases List.mem_cons.mp hp with rfl | hp1
        · rcases List.mem_cons.mp hp' with rfl | hp1'
          · rfl
          · simp at hp1'; rw [hp1']
        · simp at hp1; rw [hp1]
          rcases List.mem_cons.mp hp' with rfl | hp1'
          · rfl
          · simp at hp1'; rw [hp1']),
    ((normalization_minmax [("a", 1), ("b", 3)]).2
      ⟨("a", 1), by simp, ("b", 3), by simp, by norm_num⟩).2.1⟩

/-! ## Claim theorems: ingestion pipeline and upload flow -/

theorem statusOf_name (n : String) (o : PreviewOutcome) : (statusOf n o).name = n := by
  cases o with
  | error e => rfl
  | ok l =>
    cases l with
    | nil => rfl
    | cons r t => by_cases h : r.error.isSome <;> simp [statusOf, h]

/-- C6: batch isolation of `handleExtractPreview` — one status entry per
input file whatever the outcomes; any one file's outcome contributes only
its own status and collected entry, leaving every other file's entries
unchanged; and in the spec's 3-file scenario (file 2 corrupted) exactly 3
entries come back, exactly one with a populated `error`, the other two
with populated `structured_info`. -/
theorem extract_preview_batch_isolation :
    (∀ batch : List (String × PreviewOutcome),
      ((handleExtractPreview batch).1).map UploadedFile.name = batch.map Prod.fst) ∧
    (∀ pre post : List (String × PreviewOutcome), ∀ x : String × PreviewOutcome,
      (handleExtractPreview (pre ++ x :: post)).1 =
        (handleExtractPreview pre).1 ++
          statusOf x.1 x.2 :: (handleExtractPreview post).1 ∧
      (handleExtractPreview (pre ++ x :: post)).2.1 =
        (handleExtractPreview pre).2.1 ++
          (collectedOf x.2 ++ (handleExtractPreview post).2.1)) ∧
    ((handleExtractPreview scenarioBatch).2.1.length = 3 ∧
      (handleExtractPreview scenarioBatch).2.1.countP (fun d => d.error.isSome) = 1 ∧
      (handleExtractPreview scenarioBatch).2.1.countP
        (fun d => d.structured_info.isSome) = 2 ∧
      ((handleExtractPreview scenarioBatch).1).map UploadedFile.status =
        [FileStatus.success, FileStatus.error, FileStatus.success]) := by
  refine ⟨?_, ?_, by decide⟩
  · intro batch
    unfold handleExtractPreview
    rw [List.map_map]
    exact List.map_congr_left (fun p _ => statusOf_name p.1 p.2)
  · intro pre post x
    unfold handleExtractPreview
    simp [List.map_append, List.flatten_append]

/-- C7: the record id upserted for each chunk is the stable string
`document_id ++ "#" ++ chunk_index`; a re-ingestion producing `m ≤ n`
chunks upserts exactly the first `m` of the `n` original ids — in
particular an edited document shrinking from 5 to 3 chunks reuses the
first 3 of the original 5 ids. -/
theorem record_ids_stable (doc : String) (m n : ℕ) (h : m ≤ n) :
    upsertIds doc m = (upsertIds doc n).take m ∧
      (upsertIds doc n).length = n ∧
      ∀ i, i < n → (upsertIds doc n)[i]? = some (doc ++ "#" ++ toString i) := by
  refine ⟨?_, by simp [upsertIds], ?_⟩
  · unfold upsertIds
    rw [← List.map_take, List.take_range, Nat.min_eq_left h]
  · intro i hi
    unfold upsertIds
    rw [List.getElem?_map, List.getElem?_range hi]
    rfl

/-- C7 witness: the 5-chunk → 3-chunk re-ingestion of the spec. -/
theorem record_ids_stable_witness :
    upsertIds "doc" 3 = (upsertIds "doc" 5).take 3 ∧
      (upsertIds "doc" 5).length = 5 ∧
      ∀ i, i < 5 → (upsertIds "doc" 5)[i]? = some ("doc" ++ "#" ++ toString i) :=
  record_ids_stable "doc" 3 5 (by norm_num)

/-- C8: the Chunker is deterministic — identical configuration and
identical document text yield identical
`(chunk_index, page_from, page_to, text)` tuples. -/
theorem chunker_deterministic (cfg cfg' : ChunkCfg) (pages pages' : List (ℕ × String))
    (hcfg : cfg = cfg') (hpages : pages = pages') :
    (chunk cfg pages).map chunkTuple = (chunk cfg' pages').map chunkTuple := by
  rw [hcfg, hpages]

/-- C8 witness: determinism at a concrete two-page document, together with
the concrete chunking it evaluates to (max length 5, overlap 2). -/
theorem chunker_deterministic_witness :
    (chunk ⟨5, 2⟩ [(1, "abcdefg"), (2, "hi")]).map chunkTuple =
        (chunk ⟨5, 2⟩ [(1, "abcdefg"), (2, "hi")]).map chunkTuple ∧
      (chunk ⟨5, 2⟩ [(1, "abcdefg"), (2, "hi")]).map chunkTuple =
        [(0, 1, 1, "abcde"), (1, 1, 2, "defgh"), (2, 1, 2, "ghi")] :=
  ⟨chunker_deterministic ⟨5, 2⟩ ⟨5, 2⟩ [(1, "abcdefg"), (2, "hi")]
      [(1, "abcdefg"), (2, "hi")] rfl rfl,
    by decide⟩

/-- C9 (counterexample): the field the request carries is
`write_action: "mergeOrUpload"`; no `write_mode "merge_or_upsert"` value
is sent. -/
theorem confirm_and_index_write_action_counterexample :
    (confirmAndIndexBody []).write_action = "mergeOrUpload" ∧
      ¬ (confirmAndIndexBody []).write_action = "merge_or_upsert" :=
  ⟨rfl, by decide⟩

/-- C9 (amended): for every list of extracted records, the
`confirm_and_index` request carries the records themselves, the
merge-or-upload write mode as `write_action "mergeOrUpload"` (Azure's
merge-or-create upsert semantics), and the integer `batch_upload_size`
64 bounding upload batches (plus `embedding_dimensions` 1536). -/
theorem confirm_and_index_request (records : List ExtractedData) :
    (confirmAndIndexBody records).extracted_data = records ∧
      (confirmAndIndexBody records).write_action = "mergeOrUpload" ∧
      (confirmAndIndexBody records).batch_upload_size = 64 ∧
      (confirmAndIndexBody records).embedding_dimensions = 1536 :=
  ⟨rfl, rfl, rfl, rfl⟩

/-- C10: extraction entries with a populated `error` are filtered out
before confirmation — the preview state set by `handleExtractPreview`
holds no errored entry, and whatever the user edits or selects, the list
`handleConfirmSelected` submits to `confirm_and_index` never contains an
entry with a populated `error` field. -/
theorem confirm_excludes_errors :
    (∀ batch : List (String × PreviewOutcome),
      ∀ d ∈ (handleExtractPreview batch).2.2, d.error = none) ∧
    (∀ editData : List ExtractedData, ∀ selected : List Bool,
      ∀ d ∈ confirmSelected editData selected, d.error = none) := by
  constructor
  · intro batch d hd
    have := (List.mem_filter.mp hd).2
    simpa [Option.isNone_iff_eq_none] using this
  · intro ed sel d hd
    rcases List.mem_map.mp hd with ⟨p, hp, rfl⟩
    have := (List.mem_filter.mp hp).2
    have h2 := (Bool.and_eq_true _ _ ▸ this).2
    simpa [Option.isNone_iff_eq_none] using h2

/-- C10 witness: a concrete selected, error-free entry passed through the
confirmation filter indeed carries no error. -/
theorem confirm_excludes_errors_witness :
    ({ filename := "f1", text_length := some 100,
        structured_info := some {} } : ExtractedData).error = none :=
  confirm_excludes_errors.2
    [{ filename := "f1", text_length := some 100, structured_info := some {} }]
    [true] _ (by decide)

end IduRag
